import Mathlib

/-!
# Verification of the fpga_pico_loader bring-up programs

Shallow embedding of the two C programs of the repository:

* `src/fpga_pico_loader/pico/stage1/uart_test.c` — the diagnostic
  echo/LED-toggle loop (`diagStep`, `diagRun`);
* `src/fpga_pico_loader/pico/stage3/bootloader.c` — the fixed-length
  256-byte UART-to-RAM loader (`loaderStep`, `loaderRun`).

Each program is modelled as a small-step state machine whose state records
the current program point (phase), the byte stream the UART will deliver,
and — for the loader — the contents of the RAM buffer at
`RAM_LOAD_ADDRESS`.  Every step emits the list of peripheral actions
(`Event`) the corresponding piece of C code performs.  A busy-wait poll
that finds no byte available is one step emitting no event.

The input to the diagnostic program is a schedule `List (Option Nat)`:
one entry per availability check of the main loop, `none` meaning
`uart_is_readable` returned false on that iteration and `some b` meaning
a byte `b` was available and is consumed by `uart_getc`.  This models an
arbitrary inter-byte delay.  The blocking wait of the loader is modelled
directly on a `List Nat` of bytes: an empty list means the wait never
ends (the busy-wait step loops in place).
-/

/-- Compile-time constants of both C files. -/
def LED_PIN : Nat := 25

def UART_RX_PIN : Nat := 0

def BAUD_RATE : Nat := 115200

/-- `PROGRAM_SIZE` from `bootloader.c`: the loader receives exactly this
many bytes. -/
def PROGRAM_SIZE : Nat := 256

/-- Peripheral actions performed by the programs, in program order. -/
inductive Event where
  | gpioInit (pin : Nat)
  | gpioSetDir (pin : Nat) (out : Bool)
  | uartInit (baud : Nat)
  | gpioSetFunction (pin : Nat)
  | gpioPut (pin : Nat) (v : Bool)
  | sleepMs (ms : Nat)
  | uartGetc (b : Nat)
  | uartPutc (b : Nat)
  deriving DecidableEq, Repr

/-- The byte written by a `uart_putc` event, if any. -/
def Event.putcByte? : Event → Option Nat
  | .uartPutc b => some b
  | _ => none

/-- The byte consumed by a `uart_getc` event, if any. -/
def Event.getcByte? : Event → Option Nat
  | .uartGetc b => some b
  | _ => none

/-- Whether an event writes the status pin (`gpio_put`). -/
def Event.isGpioPut : Event → Bool
  | .gpioPut _ _ => true
  | _ => false

/-- The common initialization sequence of both `main` functions:
`gpio_init(LED_PIN)`, `gpio_set_dir(LED_PIN, GPIO_OUT)`,
`uart_init(UART_ID, BAUD_RATE)`, `gpio_set_function(UART_RX_PIN, ...)`. -/
def initEvents : List Event :=
  [Event.gpioInit LED_PIN, Event.gpioSetDir LED_PIN true,
   Event.uartInit BAUD_RATE, Event.gpioSetFunction UART_RX_PIN]

/-- One ready-blink cycle: LED on, sleep, LED off, sleep, with the given
half-period in milliseconds. -/
def blinkCycle (half : Nat) : List Event :=
  [Event.gpioPut LED_PIN true, Event.sleepMs half,
   Event.gpioPut LED_PIN false, Event.sleepMs half]

/-- One iteration of the terminal success loop of the loader:
`gpio_put(LED,1); sleep_ms(500); gpio_put(LED,0); sleep_ms(500);`. -/
def successCycle : List Event :=
  [Event.gpioPut LED_PIN true, Event.sleepMs 500,
   Event.gpioPut LED_PIN false, Event.sleepMs 500]

/-- Run a step function `n` steps, accumulating emitted events. -/
def runMachine {σ : Type} (step : σ → σ × List Event) : Nat → σ → σ × List Event
  | 0, s => (s, [])
  | n + 1, s =>
    let p := step s
    let q := runMachine step n p.1
    (q.1, p.2 ++ q.2)

/-- `program_memory[i] = v`: a single store into the byte buffer. -/
def writeMem (mem : Nat → Nat) (i v : Nat) : Nat → Nat :=
  fun j => if j = i then v else mem j

/-- Sequential stores of a list of bytes starting at index `i`, as the
receive loop of the loader performs them. -/
def fillMem (mem : Nat → Nat) (i : Nat) : List Nat → (Nat → Nat)
  | [] => mem
  | b :: bs => fillMem (writeMem mem i b) (i + 1) bs

/-- Program points of `bootloader.c` `main`:
`start` (about to run initialization), `readyBlink i` (ready-blink for
loop, counter `i`), `receiving i` (receive for loop, counter `i`),
`success` (terminal `while(1)` slow-blink loop). -/
inductive LoaderPhase where
  | start
  | readyBlink (i : Nat)
  | receiving (i : Nat)
  | success
  deriving DecidableEq, Repr

/-- State of the loader: program point, contents of the RAM buffer at
`RAM_LOAD_ADDRESS` (indexed from 0), and the bytes the UART has yet to
deliver, in arrival order. -/
structure LoaderState where
  phase : LoaderPhase
  mem : Nat → Nat
  stream : List Nat

/-- One small step of `bootloader.c` `main`.  The `receiving` phase with
an empty stream is the busy-wait `while (!uart_is_readable(...))
tight_loop_contents();` polling without progress. -/
def loaderStep (s : LoaderState) : LoaderState × List Event :=
  match s.phase with
  | .start => ({ s with phase := .readyBlink 0 }, initEvents)
  | .readyBlink i =>
    if i < 5 then
      ({ s with phase := .readyBlink (i + 1) }, blinkCycle 50)
    else
      ({ s with phase := .receiving 0 },
       [Event.sleepMs 200, Event.gpioPut LED_PIN true])
  | .receiving i =>
    if i < PROGRAM_SIZE then
      match s.stream with
      | [] => (s, [])
      | b :: rest =>
        ({ phase := .receiving (i + 1), mem := writeMem s.mem i b,
           stream := rest }, [Event.uartGetc b])
    else
      ({ s with phase := .success }, [])
  | .success => (s, successCycle)

/-- `n` steps of the loader with accumulated events. -/
def loaderRun : Nat → LoaderState → LoaderState × List Event :=
  runMachine loaderStep

/-- The loader state after `n` steps, discarding the events. -/
def loaderSteps (n : Nat) (s : LoaderState) : LoaderState :=
  (loaderRun n s).1

/-- Initial loader state: at the top of `main`, with the (unspecified)
initial RAM contents `mem0` and the input byte stream. -/
def loaderInit (mem0 : Nat → Nat) (stream : List Nat) : LoaderState :=
  { phase := .start, mem := mem0, stream := stream }

/-- Program points of `uart_test.c` `main`: `start` (initialization),
`readyBlink i` (3-cycle ready blink), `mainLoop` (the `while(1)` echo
loop). -/
inductive DiagPhase where
  | start
  | readyBlink (i : Nat)
  | mainLoop
  deriving DecidableEq, Repr

/-- State of the diagnostic program: program point, the `led_state`
variable, and the remaining availability schedule (one entry per
`uart_is_readable` check; `some b` = byte `b` available). -/
structure DiagState where
  phase : DiagPhase
  led_state : Bool
  sched : List (Option Nat)

/-- One small step of `uart_test.c` `main`.  In `mainLoop`, one step is
one iteration of the `while(1)` loop: one `uart_is_readable` check, and
on success `uart_getc`, the LED toggle write, and the `uart_putc` echo. -/
def diagStep (s : DiagState) : DiagState × List Event :=
  match s.phase with
  | .start => ({ s with phase := .readyBlink 0 }, initEvents)
  | .readyBlink i =>
    if i < 3 then
      ({ s with phase := .readyBlink (i + 1) }, blinkCycle 100)
    else
      ({ s with phase := .mainLoop, led_state := false }, [])
  | .mainLoop =>
    match s.sched with
    | [] => (s, [])
    | none :: rest => ({ s with sched := rest }, [])
    | some b :: rest =>
      ({ s with sched := rest, led_state := !s.led_state },
       [Event.uartGetc b, Event.gpioPut LED_PIN (!s.led_state),
        Event.uartPutc b])

/-- `n` steps of the diagnostic program with accumulated events. -/
def diagRun : Nat → DiagState → DiagState × List Event :=
  runMachine diagStep

/-- Initial diagnostic state: at the top of `main` with the given
availability schedule. -/
def diagInit (sched : List (Option Nat)) : DiagState :=
  { phase := .start, led_state := false, sched := sched }

/-- Invariant of the loader run started from `loaderInit mem0 s0`:
before the receive loop the stream and the buffer are untouched; in the
receive loop the counter `i` equals the number of bytes consumed, the
first `i` stream bytes sit at buffer indices `0..i-1`, and all other
buffer cells still hold their initial contents; the `success` phase is
reached only after exactly `PROGRAM_SIZE` bytes were consumed and
stored. -/
def loaderInv (mem0 : Nat → Nat) (s0 : List Nat) (st : LoaderState) : Prop :=
  match st.phase with
  | .start => st.stream = s0 ∧ st.mem = mem0
  | .readyBlink _ => st.stream = s0 ∧ st.mem = mem0
  | .receiving i =>
    i ≤ PROGRAM_SIZE ∧ i ≤ s0.length ∧ st.stream = s0.drop i ∧
    (∀ j, j < i → st.mem j = s0.getD j 0) ∧
    (∀ j, i ≤ j → st.mem j = mem0 j)
  | .success =>
    PROGRAM_SIZE ≤ s0.length ∧ st.stream = s0.drop PROGRAM_SIZE ∧
    (∀ j, j < PROGRAM_SIZE → st.mem j = s0.getD j 0) ∧
    (∀ j, PROGRAM_SIZE ≤ j → st.mem j = mem0 j)

/-- The small-step transition relation of the loader, one constructor
per program point and branch of `bootloader.c` `main`.  It is the graph
of `loaderStep` (see `loaderStepR_of_step`); stating it as a relation
lets determinism be proved rather than assumed. -/
inductive LoaderStepR : LoaderState → List Event → LoaderState → Prop where
  | start (mem : Nat → Nat) (stream : List Nat) :
      LoaderStepR ⟨.start, mem, stream⟩ initEvents ⟨.readyBlink 0, mem, stream⟩
  | blink (i : Nat) (mem : Nat → Nat) (stream : List Nat) (h : i < 5) :
      LoaderStepR ⟨.readyBlink i, mem, stream⟩ (blinkCycle 50)
        ⟨.readyBlink (i + 1), mem, stream⟩
  | blinkDone (i : Nat) (mem : Nat → Nat) (stream : List Nat) (h : ¬ i < 5) :
      LoaderStepR ⟨.readyBlink i, mem, stream⟩
        [Event.sleepMs 200, Event.gpioPut LED_PIN true] ⟨.receiving 0, mem, stream⟩
  | recvWait (i : Nat) (mem : Nat → Nat) (h : i < PROGRAM_SIZE) :
      LoaderStepR ⟨.receiving i, mem, []⟩ [] ⟨.receiving i, mem, []⟩
  | recvByte (i : Nat) (mem : Nat → Nat) (b : Nat) (rest : List Nat)
      (h : i < PROGRAM_SIZE) :
      LoaderStepR ⟨.receiving i, mem, b :: rest⟩ [Event.uartGetc b]
        ⟨.receiving (i + 1), writeMem mem i b, rest⟩
  | recvDone (i : Nat) (mem : Nat → Nat) (stream : List Nat)
      (h : ¬ i < PROGRAM_SIZE) :
      LoaderStepR ⟨.receiving i, mem, stream⟩ [] ⟨.success, mem, stream⟩
  | slowBlink (mem : Nat → Nat) (stream : List Nat) :
      LoaderStepR ⟨.success, mem, stream⟩ successCycle ⟨.success, mem, stream⟩

/-- `n`-step runs of the loader transition relation, with the
concatenated event trace. -/
inductive LoaderRunR : Nat → LoaderState → List Event → LoaderState → Prop where
  | zero (s : LoaderState) : LoaderRunR 0 s [] s
  | succ {n : Nat} {s s₁ s₂ : LoaderState} {evs evs₁ : List Event}
      (hstep : LoaderStepR s evs s₁) (hrun : LoaderRunR n s₁ evs₁ s₂) :
      LoaderRunR (n + 1) s (evs ++ evs₁) s₂

/-- The small-step transition relation of the diagnostic program, one
constructor per program point and branch of `uart_test.c` `main`. -/
inductive DiagStepR : DiagState → List Event → DiagState → Prop where
  | start (led : Bool) (sched : List (Option Nat)) :
      DiagStepR ⟨.start, led, sched⟩ initEvents ⟨.readyBlink 0, led, sched⟩
  | blink (i : Nat) (led : Bool) (sched : List (Option Nat)) (h : i < 3) :
      DiagStepR ⟨.readyBlink i, led, sched⟩ (blinkCycle 100)
        ⟨.readyBlink (i + 1), led, sched⟩
  | blinkDone (i : Nat) (led : Bool) (sched : List (Option Nat)) (h : ¬ i < 3) :
      DiagStepR ⟨.readyBlink i, led, sched⟩ [] ⟨.mainLoop, false, sched⟩
  | idle (led : Bool) :
      DiagStepR ⟨.mainLoop, led, []⟩ [] ⟨.mainLoop, led, []⟩
  | notReadable (led : Bool) (rest : List (Option Nat)) :
      DiagStepR ⟨.mainLoop, led, none :: rest⟩ [] ⟨.mainLoop, led, rest⟩
  | echo (led : Bool) (b : Nat) (rest : List (Option Nat)) :
      DiagStepR ⟨.mainLoop, led, some b :: rest⟩
        [Event.uartGetc b, Event.gpioPut LED_PIN (!led), Event.uartPutc b]
        ⟨.mainLoop, !led, rest⟩

/-- `n`-step runs of the diagnostic transition relation. -/
inductive DiagRunR : Nat → DiagState → List Event → DiagState → Prop where
  | zero (s : DiagState) : DiagRunR 0 s [] s
  | succ {n : Nat} {s s₁ s₂ : DiagState} {evs evs₁ : List Event}
      (hstep : DiagStepR s evs s₁) (hrun : DiagRunR n s₁ evs₁ s₂) :
      DiagRunR (n + 1) s (evs ++ evs₁) s₂

/-- The events emitted before the receive loop of the loader starts:
initialization, the 5-cycle 50 ms ready blink, the 200 ms pause, and the
LED-on write. -/
def loaderPreludeEvents : List Event :=
  initEvents ++ List.flatten (List.replicate 5 (blinkCycle 50))
    ++ [Event.sleepMs 200, Event.gpioPut LED_PIN true]

lemma runMachine_add {σ : Type} (step : σ → σ × List Event) (m n : Nat) (s : σ) :
    runMachine step (m + n) s =
      ((runMachine step n (runMachine step m s).1).1,
       (runMachine step m s).2 ++ (runMachine step n (runMachine step m s).1).2) := by
  induction m generalizing s with
  | zero => simp [runMachine]
  | succ m ih =>
    rw [Nat.succ_add]
    simp only [runMachine, ih, List.append_assoc]

lemma fillMem_eq (bytes : List Nat) : ∀ (mem : Nat → Nat) (i j : Nat),
    fillMem mem i bytes j =
      if i ≤ j ∧ j < i + bytes.length then bytes.getD (j - i) 0 else mem j := by
  induction bytes with
  | nil =>
    intro mem i j
    have hno : ¬ (i ≤ j ∧ j < i + ([] : List Nat).length) := by simp
    rw [fillMem, if_neg hno]
  | cons b bs ih =>
    intro mem i j
    rw [fillMem, ih]
    by_cases hij : i ≤ j ∧ j < i + (b :: bs).length
    · rw [if_pos hij]
      by_cases hji : j = i
      · subst hji
        have : ¬ (j + 1 ≤ j ∧ j < j + 1 + bs.length) := by omega
        rw [if_neg this]
        simp [writeMem]
      · have hlt : i + 1 ≤ j ∧ j < i + 1 + bs.length := by
          simp at hij; omega
        rw [if_pos hlt]
        have h1 : j - i = (j - (i + 1)) + 1 := by omega
        rw [h1, List.getD_cons_succ]
    · rw [if_neg hij]
      have : ¬ (i + 1 ≤ j ∧ j < i + 1 + bs.length) := by
        simp at hij ⊢; omega
      rw [if_neg this]
      have hne : j ≠ i := by simp at hij; omega
      simp [writeMem, hne]

lemma loader_run_receiving (bytes : List Nat) :
    ∀ (i : Nat) (mem : Nat → Nat) (rest : List Nat),
    i + bytes.length ≤ PROGRAM_SIZE →
    loaderRun bytes.length ⟨LoaderPhase.receiving i, mem, bytes ++ rest⟩
      = (⟨LoaderPhase.receiving (i + bytes.length), fillMem mem i bytes, rest⟩,
         bytes.map Event.uartGetc) := by
  induction bytes with
  | nil =>
    intro i mem rest h
    simp [loaderRun, runMachine, fillMem]
  | cons b bs ih =>
    intro i mem rest h
    have hi : i < PROGRAM_SIZE := by simp at h; omega
    have hstep : loaderStep ⟨LoaderPhase.receiving i, mem, (b :: bs) ++ rest⟩
        = (⟨LoaderPhase.receiving (i + 1), writeMem mem i b, bs ++ rest⟩,
           [Event.uartGetc b]) := by
      simp [loaderStep, hi]
    have hlen : (b :: bs).length = bs.length + 1 := rfl
    rw [hlen]
    have hrun : loaderRun (bs.length + 1) ⟨LoaderPhase.receiving i, mem, (b :: bs) ++ rest⟩
        = ((loaderRun bs.length ⟨LoaderPhase.receiving (i + 1), writeMem mem i b, bs ++ rest⟩).1,
           [Event.uartGetc b] ++ (loaderRun bs.length ⟨LoaderPhase.receiving (i + 1), writeMem mem i b, bs ++ rest⟩).2) := by
      show runMachine loaderStep (bs.length + 1) _ = _
      rw [runMachine]
      simp only [hstep]
      rfl
    rw [hrun, ih (i + 1) (writeMem mem i b) rest (by simp at h ⊢; omega)]
    simp [fillMem]
    omega

lemma loader_success_run (n : Nat) (mem : Nat → Nat) (stream : List Nat) :
    loaderRun n ⟨LoaderPhase.success, mem, stream⟩
      = (⟨LoaderPhase.success, mem, stream⟩,
         List.flatten (List.replicate n successCycle)) := by
  induction n with
  | zero => rfl
  | succ n ih =>
    show runMachine loaderStep (n + 1) _ = _
    rw [runMachine]
    have hstep : loaderStep ⟨LoaderPhase.success, mem, stream⟩
        = (⟨LoaderPhase.success, mem, stream⟩, successCycle) := rfl
    simp only [hstep]
    show ((loaderRun n _).1, successCycle ++ (loaderRun n _).2) = _
    rw [ih]
    simp [List.replicate_succ]

lemma loader_blocked_run (n : Nat) (i : Nat) (mem : Nat → Nat)
    (h : i < PROGRAM_SIZE) :
    loaderRun n ⟨LoaderPhase.receiving i, mem, []⟩
      = (⟨LoaderPhase.receiving i, mem, []⟩, []) := by
  induction n with
  | zero => rfl
  | succ n ih =>
    show runMachine loaderStep (n + 1) _ = _
    rw [runMachine]
    have hstep : loaderStep ⟨LoaderPhase.receiving i, mem, []⟩
        = (⟨LoaderPhase.receiving i, mem, []⟩, []) := by
      simp [loaderStep, h]
    simp only [hstep]
    show ((loaderRun n _).1, ([] : List Event) ++ (loaderRun n _).2) = _
    rw [ih]
    rfl

lemma loaderSteps_succ_swap (n : Nat) (s : LoaderState) :
    loaderSteps (n + 1) s = loaderSteps n (loaderStep s).1 := rfl

lemma loaderInv_init (mem0 : Nat → Nat) (s0 : List Nat) :
    loaderInv mem0 s0 (loaderInit mem0 s0) := ⟨rfl, rfl⟩

lemma loaderInv_step (mem0 : Nat → Nat) (s0 : List Nat) (st : LoaderState)
    (h : loaderInv mem0 s0 st) : loaderInv mem0 s0 (loaderStep st).1 := by
  obtain ⟨ph, mem, stream⟩ := st
  cases ph with
  | start =>
    obtain ⟨h1, h2⟩ := h
    subst h1; subst h2
    exact ⟨rfl, rfl⟩
  | readyBlink i =>
    obtain ⟨h1, h2⟩ := h
    subst h1; subst h2
    by_cases hi : i < 5
    · simp only [loaderStep, if_pos hi]
      exact ⟨rfl, rfl⟩
    · simp only [loaderStep, if_neg hi]
      refine ⟨by omega, by omega, rfl, ?_, ?_⟩
      · intro j hj; omega
      · intro j hj; rfl
  | receiving i =>
    obtain ⟨hle, hlen, hstream, hmemlo, hmemhi⟩ := h
    by_cases hi : i < PROGRAM_SIZE
    · cases hs : stream with
      | nil =>
        subst hs
        simp only [loaderStep, if_pos hi]
        exact ⟨hle, hlen, hstream, hmemlo, hmemhi⟩
      | cons b rest =>
        subst hs
        simp only [loaderStep, if_pos hi]
        have hdrop : s0.drop i = b :: rest := hstream.symm
        have hilen : i < s0.length := by
          by_contra hcon
          push_neg at hcon
          have hnil : s0.drop i = [] := List.drop_eq_nil_of_le hcon
          rw [hdrop] at hnil
          exact List.cons_ne_nil _ _ hnil
        have hgetb : s0.getD i 0 = b := by
          have h0 : (s0.drop i)[0]? = s0[i + 0]? := List.getElem?_drop s0 i 0
          rw [hdrop] at h0
          simp at h0
          rw [List.getD_eq_getElem?_getD, ← h0]
          rfl
        have hrest : rest = s0.drop (i + 1) := by
          have hdd : s0.drop (i + 1) = (s0.drop i).drop 1 := by
            rw [List.drop_drop]
          rw [hdd, hdrop]
          rfl
        refine ⟨by omega, by omega, hrest, ?_, ?_⟩
        · intro j hj
          by_cases hji : j = i
          · subst hji
            show (if j = j then b else mem j) = s0.getD j 0
            rw [if_pos rfl]
            exact hgetb.symm
          · have hjlt : j < i := by omega
            simp only [writeMem, if_neg hji]
            exact hmemlo j hjlt
        · intro j hj
          have hne : j ≠ i := by omega
          simp only [writeMem, if_neg hne]
          exact hmemhi j (by omega)
    · simp only [loaderStep, if_neg hi]
      have h256 : i = PROGRAM_SIZE := by omega
      subst h256
      exact ⟨hlen, hstream, hmemlo, hmemhi⟩
  | success =>
    exact h

lemma loaderInv_run (mem0 : Nat → Nat) (s0 : List Nat) (n : Nat) :
    loaderInv mem0 s0 (loaderSteps n (loaderInit mem0 s0)) := by
  suffices hgen : ∀ (m : Nat) (st : LoaderState), loaderInv mem0 s0 st →
      loaderInv mem0 s0 (loaderSteps m st) by
    exact hgen n (loaderInit mem0 s0) (loaderInv_init mem0 s0)
  intro m
  induction m with
  | zero => intro st h; exact h
  | succ m ih =>
    intro st h
    rw [loaderSteps_succ_swap]
    exact ih (loaderStep st).1 (loaderInv_step mem0 s0 st h)

lemma diag_loop_trace (sched : List (Option Nat)) : ∀ led : Bool,
    ((diagRun sched.length ⟨DiagPhase.mainLoop, led, sched⟩).2).filterMap Event.getcByte?
        = sched.filterMap id ∧
    ((diagRun sched.length ⟨DiagPhase.mainLoop, led, sched⟩).2).filterMap Event.putcByte?
        = sched.filterMap id ∧
    ((diagRun sched.length ⟨DiagPhase.mainLoop, led, sched⟩).2).countP Event.isGpioPut
        = (sched.filterMap id).length := by
  induction sched with
  | nil => intro led; refine ⟨rfl, rfl, rfl⟩
  | cons cell rest ih =>
    intro led
    cases cell with
    | none =>
      have hstep : diagStep ⟨DiagPhase.mainLoop, led, none :: rest⟩
          = (⟨DiagPhase.mainLoop, led, rest⟩, []) := rfl
      have hrun : diagRun (rest.length + 1) ⟨DiagPhase.mainLoop, led, none :: rest⟩
          = ((diagRun rest.length ⟨DiagPhase.mainLoop, led, rest⟩).1,
             ([] : List Event) ++ (diagRun rest.length ⟨DiagPhase.mainLoop, led, rest⟩).2) := by
        show runMachine diagStep (rest.length + 1) _ = _
        rw [runMachine]
        simp only [hstep]
        rfl
      have hlen : (none :: rest : List (Option Nat)).length = rest.length + 1 := rfl
      rw [hlen, hrun]
      obtain ⟨ih1, ih2, ih3⟩ := ih led
      simpa using ⟨ih1, ih2, ih3⟩
    | some b =>
      have hstep : diagStep ⟨DiagPhase.mainLoop, led, some b :: rest⟩
          = (⟨DiagPhase.mainLoop, !led, rest⟩,
             [Event.uartGetc b, Event.gpioPut LED_PIN (!led), Event.uartPutc b]) := rfl
      have hrun : diagRun (rest.length + 1) ⟨DiagPhase.mainLoop, led, some b :: rest⟩
          = ((diagRun rest.length ⟨DiagPhase.mainLoop, !led, rest⟩).1,
             [Event.uartGetc b, Event.gpioPut LED_PIN (!led), Event.uartPutc b]
               ++ (diagRun rest.length ⟨DiagPhase.mainLoop, !led, rest⟩).2) := by
        show runMachine diagStep (rest.length + 1) _ = _
        rw [runMachine]
        simp only [hstep]
        rfl
      have hlen : (some b :: rest : List (Option Nat)).length = rest.length + 1 := rfl
      rw [hlen, hrun]
      obtain ⟨ih1, ih2, ih3⟩ := ih (!led)
      refine ⟨?_, ?_, ?_⟩
      · simp [List.filterMap_cons, Event.getcByte?, ih1]
      · simp [List.filterMap_cons, Event.putcByte?, ih2]
      · simp [List.countP_cons, Event.isGpioPut, ih3]

lemma loaderStepR_of_step (s : LoaderState) :
    LoaderStepR s (loaderStep s).2 (loaderStep s).1 := by
  obtain ⟨ph, mem, stream⟩ := s
  cases ph with
  | start => exact LoaderStepR.start mem stream
  | readyBlink i =>
    by_cases hi : i < 5
    · simp only [loaderStep, if_pos hi]
      exact LoaderStepR.blink i mem stream hi
    · simp only [loaderStep, if_neg hi]
      exact LoaderStepR.blinkDone i mem stream hi
  | receiving i =>
    by_cases hi : i < PROGRAM_SIZE
    · cases stream with
      | nil =>
        simp only [loaderStep, if_pos hi]
        exact LoaderStepR.recvWait i mem hi
      | cons b rest =>
        simp only [loaderStep, if_pos hi]
        exact LoaderStepR.recvByte i mem b rest hi
    · simp only [loaderStep, if_neg hi]
      exact LoaderStepR.recvDone i mem stream hi
  | success => exact LoaderStepR.slowBlink mem stream

lemma loaderStepR_det {s t₁ t₂ : LoaderState} {e₁ e₂ : List Event}
    (h₁ : LoaderStepR s e₁ t₁) (h₂ : LoaderStepR s e₂ t₂) :
    e₁ = e₂ ∧ t₁ = t₂ := by
  cases h₁ <;> cases h₂ <;> simp_all

lemma loaderRunR_det : ∀ {n : Nat} {s t₁ t₂ : LoaderState} {e₁ e₂ : List Event},
    LoaderRunR n s e₁ t₁ → LoaderRunR n s e₂ t₂ → e₁ = e₂ ∧ t₁ = t₂ := by
  intro n
  induction n with
  | zero =>
    intro s t₁ t₂ e₁ e₂ h₁ h₂
    cases h₁; cases h₂; exact ⟨rfl, rfl⟩
  | succ n ih =>
    intro s t₁ t₂ e₁ e₂ h₁ h₂
    cases h₁ with
    | succ hstep₁ hrun₁ =>
      cases h₂ with
      | succ hstep₂ hrun₂ =>
        obtain ⟨he, hs⟩ := loaderStepR_det hstep₁ hstep₂
        subst he; subst hs
        obtain ⟨he₁, ht₁⟩ := ih hrun₁ hrun₂
        exact ⟨by rw [he₁], ht₁⟩

lemma diagStepR_of_step (s : DiagState) :
    DiagStepR s (diagStep s).2 (diagStep s).1 := by
  obtain ⟨ph, led, sched⟩ := s
  cases ph with
  | start => exact DiagStepR.start led sched
  | readyBlink i =>
    by_cases hi : i < 3
    · simp only [diagStep, if_pos hi]
      exact DiagStepR.blink i led sched hi
    · simp only [diagStep, if_neg hi]
      exact DiagStepR.blinkDone i led sched hi
  | mainLoop =>
    cases sched with
    | nil => exact DiagStepR.idle led
    | cons cell rest =>
      cases cell with
      | none => exact DiagStepR.notReadable led rest
      | some b => exact DiagStepR.echo led b rest

lemma diagStepR_det {s t₁ t₂ : DiagState} {e₁ e₂ : List Event}
    (h₁ : DiagStepR s e₁ t₁) (h₂ : DiagStepR s e₂ t₂) :
    e₁ = e₂ ∧ t₁ = t₂ := by
  cases h₁ <;> cases h₂ <;> simp_all

lemma diagRunR_det : ∀ {n : Nat} {s t₁ t₂ : DiagState} {e₁ e₂ : List Event},
    DiagRunR n s e₁ t₁ → DiagRunR n s e₂ t₂ → e₁ = e₂ ∧ t₁ = t₂ := by
  intro n
  induction n with
  | zero =>
    intro s t₁ t₂ e₁ e₂ h₁ h₂
    cases h₁; cases h₂; exact ⟨rfl, rfl⟩
  | succ n ih =>
    intro s t₁ t₂ e₁ e₂ h₁ h₂
    cases h₁ with
    | succ hstep₁ hrun₁ =>
      cases h₂ with
      | succ hstep₂ hrun₂ =>
        obtain ⟨he, hs⟩ := diagStepR_det hstep₁ hstep₂
        subst he; subst hs
        obtain ⟨he₁, ht₁⟩ := ih hrun₁ hrun₂
        exact ⟨by rw [he₁], ht₁⟩

lemma loaderRun_add (m n : Nat) (s : LoaderState) :
    loaderRun (m + n) s
      = ((loaderRun n (loaderRun m s).1).1,
         (loaderRun m s).2 ++ (loaderRun n (loaderRun m s).1).2) :=
  runMachine_add loaderStep m n s

lemma loaderSteps_add (m n : Nat) (s : LoaderState) :
    loaderSteps (m + n) s = loaderSteps n (loaderSteps m s) := by
  simp only [loaderSteps, loaderRun_add]

lemma loader_prelude (mem0 : Nat → Nat) (stream : List Nat) :
    loaderRun 7 (loaderInit mem0 stream)
      = (⟨LoaderPhase.receiving 0, mem0, stream⟩, loaderPreludeEvents) := rfl

lemma loader_complete (mem0 : Nat → Nat) (bytes rest : List Nat)
    (hb : bytes.length = PROGRAM_SIZE) :
    loaderRun 264 (loaderInit mem0 (bytes ++ rest))
      = (⟨LoaderPhase.success, fillMem mem0 0 bytes, rest⟩,
         loaderPreludeEvents ++ bytes.map Event.uartGetc) := by
  have hrecv := loader_run_receiving bytes 0 mem0 rest (by omega)
  have hmid : loaderRun (bytes.length + 1)
      ⟨LoaderPhase.receiving 0, mem0, bytes ++ rest⟩
      = (⟨LoaderPhase.success, fillMem mem0 0 bytes, rest⟩,
         bytes.map Event.uartGetc) := by
    rw [loaderRun_add, hrecv]
    have hz : 0 + bytes.length = PROGRAM_SIZE := by omega
    rw [hz]
    have hlast : loaderRun 1
        ⟨LoaderPhase.receiving PROGRAM_SIZE, fillMem mem0 0 bytes, rest⟩
        = (⟨LoaderPhase.success, fillMem mem0 0 bytes, rest⟩, []) := rfl
    rw [hlast]
    simp
  have hb256 : bytes.length = 256 := by rw [hb]; rfl
  have hsplit : (264 : Nat) = 7 + (bytes.length + 1) := by omega
  rw [hsplit, loaderRun_add, loader_prelude]
  rw [hmid]

/-- C1: with at least 256 input bytes, after the receive loop the buffer
holds the first 256 bytes in order (the Nth byte sent at index N-1), and
the program is in the slow-blink success state. -/
theorem loader_c1 (mem0 : Nat → Nat) (stream : List Nat)
    (h : PROGRAM_SIZE ≤ stream.length) :
    (loaderSteps 264 (loaderInit mem0 stream)).phase = LoaderPhase.success ∧
    (∀ N, 1 ≤ N → N ≤ PROGRAM_SIZE →
      (loaderSteps 264 (loaderInit mem0 stream)).mem (N - 1)
        = stream.getD (N - 1) 0) ∧
    (loaderStep (loaderSteps 264 (loaderInit mem0 stream))).2 = successCycle := by
  have hsplitstream : stream = stream.take PROGRAM_SIZE ++ stream.drop PROGRAM_SIZE :=
    (List.take_append_drop _ _).symm
  have hblen : (stream.take PROGRAM_SIZE).length = PROGRAM_SIZE := by
    rw [List.length_take]
    omega
  have hc := loader_complete mem0 (stream.take PROGRAM_SIZE)
    (stream.drop PROGRAM_SIZE) hblen
  rw [← hsplitstream] at hc
  have hstate : loaderSteps 264 (loaderInit mem0 stream)
      = ⟨LoaderPhase.success, fillMem mem0 0 (stream.take PROGRAM_SIZE),
         stream.drop PROGRAM_SIZE⟩ := by
    simp only [loaderSteps, hc]
  refine ⟨by rw [hstate], ?_, by rw [hstate]; rfl⟩
  intro N h1 h2
  rw [hstate]
  show fillMem mem0 0 (stream.take PROGRAM_SIZE) (N - 1) = stream.getD (N - 1) 0
  rw [fillMem_eq]
  have hcond : 0 ≤ N - 1 ∧ N - 1 < 0 + (stream.take PROGRAM_SIZE).length := by
    rw [hblen]; omega
  rw [if_pos hcond, Nat.sub_zero]
  have hlt : N - 1 < PROGRAM_SIZE := by rw [hblen] at hcond; omega
  rw [List.getD_eq_getElem?_getD, List.getD_eq_getElem?_getD,
    List.getElem?_take]
  rw [if_pos hlt]

/-- C1 witness: 256 concrete bytes load and reach success. -/
theorem loader_c1_witness :
    PROGRAM_SIZE ≤ (List.range 256).length ∧
    (loaderSteps 264 (loaderInit (fun _ => 0) (List.range 256))).phase
      = LoaderPhase.success :=
  ⟨by simp [PROGRAM_SIZE], (loader_c1 (fun _ => 0) (List.range 256)
    (by simp [PROGRAM_SIZE])).1⟩

lemma loaderInv_receiving (mem0 : Nat → Nat) (s0 : List Nat) (st : LoaderState)
    (i : Nat) (h : loaderInv mem0 s0 st)
    (hp : st.phase = LoaderPhase.receiving i) :
    i ≤ PROGRAM_SIZE ∧ i ≤ s0.length ∧ st.stream = s0.drop i ∧
    (∀ j, j < i → st.mem j = s0.getD j 0) ∧
    (∀ j, i ≤ j → st.mem j = mem0 j) := by
  obtain ⟨ph, mem, stream⟩ := st
  cases ph with
  | receiving k =>
    injection hp with hk
    subst hk
    exact h
  | start => exact LoaderPhase.noConfusion hp
  | readyBlink j => exact LoaderPhase.noConfusion hp
  | success => exact LoaderPhase.noConfusion hp

lemma loaderInv_success (mem0 : Nat → Nat) (s0 : List Nat) (st : LoaderState)
    (h : loaderInv mem0 s0 st) (hp : st.phase = LoaderPhase.success) :
    PROGRAM_SIZE ≤ s0.length ∧ st.stream = s0.drop PROGRAM_SIZE ∧
    (∀ j, j < PROGRAM_SIZE → st.mem j = s0.getD j 0) ∧
    (∀ j, PROGRAM_SIZE ≤ j → st.mem j = mem0 j) := by
  obtain ⟨ph, mem, stream⟩ := st
  cases ph with
  | success => exact h
  | start => exact LoaderPhase.noConfusion hp
  | readyBlink j => exact LoaderPhase.noConfusion hp
  | receiving k => exact LoaderPhase.noConfusion hp

/-- C2: diagnostic mode.  For every availability schedule (bytes sent one
at a time with arbitrary inter-byte delay), the main loop consumes exactly
one byte per successful available-byte check, the status pin is written
exactly once per byte received (N toggles for N bytes), and the echoed
output stream equals the input stream byte for byte. -/
theorem diag_c2 (sched : List (Option Nat)) :
    (diagRun 5 (diagInit sched)).1 = ⟨DiagPhase.mainLoop, false, sched⟩ ∧
    ((diagRun sched.length ⟨DiagPhase.mainLoop, false, sched⟩).2).filterMap
        Event.getcByte? = sched.filterMap id ∧
    ((diagRun sched.length ⟨DiagPhase.mainLoop, false, sched⟩).2).filterMap
        Event.putcByte? = sched.filterMap id ∧
    ((diagRun sched.length ⟨DiagPhase.mainLoop, false, sched⟩).2).countP
        Event.isGpioPut = (sched.filterMap id).length := by
  obtain ⟨h1, h2, h3⟩ := diag_loop_trace sched false
  exact ⟨rfl, h1, h2, h3⟩

/-- C3: loader mode with fewer than 256 input bytes.  The program never
reaches the success phase at any step count, and from step
`7 + s0.length` on it is stuck forever in the receive loop with the
stream exhausted: no timeout and no exit with a short count. -/
theorem loader_c3 (mem0 : Nat → Nat) (s0 : List Nat)
    (h : s0.length < PROGRAM_SIZE) :
    (∀ n, (loaderSteps n (loaderInit mem0 s0)).phase ≠ LoaderPhase.success) ∧
    (∀ n, loaderSteps (7 + s0.length + n) (loaderInit mem0 s0)
        = ⟨LoaderPhase.receiving s0.length, fillMem mem0 0 s0, []⟩) := by
  constructor
  · intro n hphase
    have hinv := loaderInv_run mem0 s0 n
    obtain ⟨hlen, -⟩ := loaderInv_success mem0 s0 _ hinv hphase
    omega
  · intro n
    have hstream : s0 ++ ([] : List Nat) = s0 := List.append_nil s0
    have hrecv := loader_run_receiving s0 0 mem0 [] (by omega)
    rw [hstream] at hrecv
    have h7 : loaderSteps 7 (loaderInit mem0 s0)
        = ⟨LoaderPhase.receiving 0, mem0, s0⟩ := rfl
    rw [loaderSteps_add, loaderSteps_add, h7]
    have hmidsteps : loaderSteps s0.length ⟨LoaderPhase.receiving 0, mem0, s0⟩
        = ⟨LoaderPhase.receiving (0 + s0.length), fillMem mem0 0 s0, []⟩ := by
      simp only [loaderSteps, hrecv]
    rw [hmidsteps]
    have hlt : 0 + s0.length < PROGRAM_SIZE := by omega
    have hblocked := loader_blocked_run n (0 + s0.length) (fillMem mem0 0 s0) hlt
    simp only [loaderSteps, hblocked]
    have hz : 0 + s0.length = s0.length := by omega
    rw [hz]

/-- C3 witness: a 3-byte stream never reaches success. -/
theorem loader_c3_witness :
    ([1, 2, 3] : List Nat).length < PROGRAM_SIZE ∧
    (loaderSteps 9 (loaderInit (fun _ => 0) [1, 2, 3])).phase
      ≠ LoaderPhase.success :=
  ⟨by decide, (loader_c3 (fun _ => 0) [1, 2, 3] (by decide)).1 9⟩

/-- C4: after the loader has consumed exactly 256 bytes, for every
continuation `extra` of the input and every later step count the state
stays in the terminal success phase with the extra bytes unconsumed and
the buffer unchanged, and no event emitted after the receive loop is a
`uart_getc`: the program never re-arms to receive again. -/
theorem loader_c4 (mem0 : Nat → Nat) (bytes extra : List Nat)
    (h : bytes.length = PROGRAM_SIZE) (n : Nat) :
    loaderSteps (264 + n) (loaderInit mem0 (bytes ++ extra))
      = ⟨LoaderPhase.success, fillMem mem0 0 bytes, extra⟩ ∧
    (∀ e ∈ (loaderRun n
        ⟨LoaderPhase.success, fillMem mem0 0 bytes, extra⟩).2,
      ∀ b, e ≠ Event.uartGetc b) := by
  constructor
  · rw [loaderSteps_add]
    have h264 : loaderSteps 264 (loaderInit mem0 (bytes ++ extra))
        = ⟨LoaderPhase.success, fillMem mem0 0 bytes, extra⟩ := by
      simp only [loaderSteps, loader_complete mem0 bytes extra h]
    rw [h264]
    simp only [loaderSteps, loader_success_run]
  · intro e he b
    rw [loader_success_run] at he
    simp only [List.mem_flatten, List.mem_replicate] at he
    obtain ⟨l, ⟨-, hl⟩, hel⟩ := he
    subst hl
    simp only [successCycle, List.mem_cons, List.not_mem_nil, or_false] at hel
    rcases hel with rfl | rfl | rfl | rfl <;> simp

/-- C4 witness: 256 bytes plus one extra, two steps past completion. -/
theorem loader_c4_witness :
    (List.replicate 256 7 : List Nat).length = PROGRAM_SIZE ∧
    loaderSteps (264 + 2) (loaderInit (fun _ => 0)
        (List.replicate 256 7 ++ [1]))
      = ⟨LoaderPhase.success, fillMem (fun _ => 0) 0 (List.replicate 256 7), [1]⟩ :=
  ⟨by simp only [List.length_replicate]; rfl,
   (loader_c4 (fun _ => 0) (List.replicate 256 7) [1]
     (by simp only [List.length_replicate]; rfl) 2).1⟩

/-- C5: receive-loop invariant.  At every step count, while the loader is
in the receive loop at index `i`, exactly `i` bytes have been consumed
from the stream and exactly the buffer cells below `i` have been written
(with the consumed bytes, in order; all other cells still hold their
initial contents), so the consumed count equals the written count at
every point; and the loop hands over to the success phase only after
exactly `PROGRAM_SIZE` (256) bytes were consumed and stored. -/
theorem loader_c5 (mem0 : Nat → Nat) (s0 : List Nat) (n : Nat) :
    (∀ i, (loaderSteps n (loaderInit mem0 s0)).phase = LoaderPhase.receiving i →
      i ≤ s0.length ∧
      (loaderSteps n (loaderInit mem0 s0)).stream = s0.drop i ∧
      s0.length - ((loaderSteps n (loaderInit mem0 s0)).stream).length = i ∧
      (∀ j, j < i → (loaderSteps n (loaderInit mem0 s0)).mem j = s0.getD j 0) ∧
      (∀ j, i ≤ j → (loaderSteps n (loaderInit mem0 s0)).mem j = mem0 j)) ∧
    ((loaderSteps n (loaderInit mem0 s0)).phase = LoaderPhase.success →
      PROGRAM_SIZE ≤ s0.length ∧
      (loaderSteps n (loaderInit mem0 s0)).stream = s0.drop PROGRAM_SIZE) := by
  have hinv := loaderInv_run mem0 s0 n
  constructor
  · intro i hph
    obtain ⟨hle, hlen, hstream, hlo, hhi⟩ :=
      loaderInv_receiving mem0 s0 _ i hinv hph
    refine ⟨hlen, hstream, ?_, hlo, hhi⟩
    rw [hstream, List.length_drop]
    omega
  · intro hph
    obtain ⟨hlen, hstream, -, -⟩ := loaderInv_success mem0 s0 _ hinv hph
    exact ⟨hlen, hstream⟩

/-- C5 witness: after one consumed byte the invariant gives its value. -/
theorem loader_c5_witness :
    (loaderSteps 8 (loaderInit (fun _ => 0) [7])).phase
      = LoaderPhase.receiving 1 ∧
    (loaderSteps 8 (loaderInit (fun _ => 0) [7])).mem 0
      = ([7] : List Nat).getD 0 0 :=
  ⟨rfl, ((loader_c5 (fun _ => 0) [7] 8).1 1 rfl).2.2.2.1 0 (by decide)⟩

/-- C6: ready phase.  Before entering its main loop the diagnostic
program emits exactly 3 full assert/deassert cycles at a 100 ms
half-period, and the loader exactly 5 full cycles at a 50 ms half-period,
for every input stream and schedule (the ready-phase trace does not
depend on serial activity). -/
theorem status_c6 (mem0 : Nat → Nat) (stream : List Nat)
    (sched : List (Option Nat)) :
    (loaderRun 7 (loaderInit mem0 stream)).2
      = initEvents ++ List.flatten (List.replicate 5 (blinkCycle 50))
          ++ [Event.sleepMs 200, Event.gpioPut LED_PIN true] ∧
    (diagRun 5 (diagInit sched)).2
      = initEvents ++ List.flatten (List.replicate 3 (blinkCycle 100)) := by
  exact ⟨rfl, rfl⟩

/-- C7: active phase of the loader.  No step taken inside the receive
loop writes the status pin (whether polling idle, consuming a byte, or
leaving the loop), and the last pin write before the loop asserts the
pin, so the pin is asserted before the first byte and stays asserted
throughout reception. -/
theorem loader_c7 (mem0 : Nat → Nat) (stream : List Nat)
    (st : LoaderState) (i : Nat) (h : st.phase = LoaderPhase.receiving i) :
    (∀ e ∈ (loaderStep st).2, ∀ p v, e ≠ Event.gpioPut p v) ∧
    ((loaderRun 7 (loaderInit mem0 stream)).2).getLast?
      = some (Event.gpioPut LED_PIN true) := by
  constructor
  · obtain ⟨ph, mem, str⟩ := st
    simp only at h
    subst h
    by_cases hi : i < PROGRAM_SIZE
    · cases str with
      | nil =>
        simp only [loaderStep, if_pos hi]
        intro e he
        simp at he
      | cons b rest =>
        simp only [loaderStep, if_pos hi]
        intro e he p v
        simp only [List.mem_cons, List.not_mem_nil, or_false] at he
        subst he
        simp
    · simp only [loaderStep, if_neg hi]
      intro e he
      simp at he
  · rfl

/-- C7 witness: the byte-consuming step emits no pin write. -/
theorem loader_c7_witness :
    Event.uartGetc 9 ∈ (loaderStep ⟨LoaderPhase.receiving 0, fun _ => 0, [9]⟩).2 ∧
    Event.uartGetc 9 ≠ Event.gpioPut 25 true :=
  ⟨by simp [loaderStep, PROGRAM_SIZE],
   (loader_c7 (fun _ => 0) [] ⟨LoaderPhase.receiving 0, fun _ => 0, [9]⟩ 0 rfl).1
     (Event.uartGetc 9) (by simp [loaderStep, PROGRAM_SIZE]) 25 true⟩

/-- C8: success phase of the loader.  From any success state, `n` steps
leave the state unchanged (the state is terminal: no transition leads
anywhere else, in particular never back to an earlier phase) and emit
exactly `n` repetitions of the 500 ms half-period assert/deassert
slow-blink cycle, for every `n`: the blinking continues indefinitely. -/
theorem loader_c8 (mem : Nat → Nat) (stream : List Nat) (n : Nat) :
    loaderRun n ⟨LoaderPhase.success, mem, stream⟩
      = (⟨LoaderPhase.success, mem, stream⟩,
         List.flatten (List.replicate n successCycle)) :=
  loader_success_run n mem stream

/-- C9: the initialization and ready-blink phase of both programs
consumes no bytes.  The loader reaches the receive loop after 7 steps
with the stream untouched, so the first byte consumed is the first byte
of the stream and is stored at buffer index 0; the diagnostic program
reaches its main loop after 5 steps with the schedule untouched, and the
first byte echoed is the first byte supplied by the schedule. -/
theorem frame_c9 (mem0 : Nat → Nat) (b : Nat) (rest : List Nat)
    (sched : List (Option Nat)) :
    loaderSteps 7 (loaderInit mem0 (b :: rest))
      = ⟨LoaderPhase.receiving 0, mem0, b :: rest⟩ ∧
    (loaderSteps 8 (loaderInit mem0 (b :: rest))).mem 0 = b ∧
    (diagRun 5 (diagInit sched)).1.sched = sched ∧
    (((diagRun sched.length ⟨DiagPhase.mainLoop, false, sched⟩).2).filterMap
        Event.putcByte?).head? = (sched.filterMap id).head? := by
  refine ⟨rfl, rfl, rfl, ?_⟩
  obtain ⟨-, h2, -⟩ := diag_loop_trace sched false
  rw [h2]

/-- C10: determinism.  Both transition relations are deterministic: any
two `n`-step runs of the loader from the same initial RAM contents and
input stream produce the same event trace (hence the same buffer
contents and pin-write sequence) and the same final state, and likewise
any two runs of the diagnostic program from the same schedule. -/
theorem determinism_c10 :
    (∀ (mem0 : Nat → Nat) (stream : List Nat) (n : Nat)
        (e₁ e₂ : List Event) (t₁ t₂ : LoaderState),
      LoaderRunR n (loaderInit mem0 stream) e₁ t₁ →
      LoaderRunR n (loaderInit mem0 stream) e₂ t₂ →
      e₁ = e₂ ∧ t₁ = t₂) ∧
    (∀ (sched : List (Option Nat)) (n : Nat)
        (e₁ e₂ : List Event) (t₁ t₂ : DiagState),
      DiagRunR n (diagInit sched) e₁ t₁ →
      DiagRunR n (diagInit sched) e₂ t₂ →
      e₁ = e₂ ∧ t₁ = t₂) := by
  constructor
  · intro mem0 stream n e₁ e₂ t₁ t₂ h₁ h₂
    exact loaderRunR_det h₁ h₂
  · intro sched n e₁ e₂ t₁ t₂ h₁ h₂
    exact diagRunR_det h₁ h₂

/-- C10 witness: two zero-step runs coincide. -/
theorem determinism_c10_witness :
    ([] : List Event) = ([] : List Event) ∧
    loaderInit (fun _ => 0) [] = loaderInit (fun _ => 0) [] :=
  determinism_c10.1 (fun _ => 0) [] 0 [] [] _ _
    (LoaderRunR.zero _) (LoaderRunR.zero _)
